import Mathlib

/-!
Verification development for the FridgeChef credential subsystem.

Part I embeds the secret cipher (`src/backend/src/utils/encryption.js`,
present as `src/unnamed/part_006`): hex encoding, the `:`-joined
four-segment format, key derivation and the AES-256-GCM call.  The calls
into Node's `crypto` library (PBKDF2, the AES keystream, the GHASH tag)
are modelled by concrete deterministic functions with the structure the
library guarantees: PBKDF2 is a deterministic function of
(secret, salt, iterations, keyLength) producing `keyLength` bytes; the
GCM cipher XORs the plaintext with a keystream determined by (key, iv);
the GCM tag is a position-sensitive polynomial MAC of the ciphertext
(modelled over the field with 257 elements, so that any single-symbol
change of the ciphertext changes the tag, as GHASH guarantees), encoded
in the tag's 16 bytes.

Strings are modelled as lists of character codes (`List Nat`); the byte
arrays Node's `Buffer` holds are lists of naturals below 256.

Part II embeds the credential controller
(`src/backend/src/controllers/profileController.js`).
-/

/-- Byte sequences (Node `Buffer` contents): naturals, valid when < 256. -/
abbrev Bytes := List Nat

/-- Character-code sequences (JS strings restricted to ASCII, as all the
cipher output is). -/
abbrev Chars := List Nat

/-- Code of the `:` delimiter character. -/
def colonCode : Nat := 58

/-! ### Hex encoding and decoding (Node `Buffer` semantics) -/

/-- Character code of the hex digit for a nibble: `0`-`9` then lowercase
`a`-`f`, as `Buffer.toString('hex')` produces. -/
def hexDigitChar (n : Nat) : Nat :=
  if n < 10 then 48 + n else 87 + n

/-- `buf.toString('hex')`: two lowercase hex characters per byte. -/
def hexEncode (bs : Bytes) : Chars :=
  bs.flatMap (fun b => [hexDigitChar (b / 16), hexDigitChar (b % 16)])

/-- Value of a hex-digit character (`0-9`, `a-f`, `A-F`), `none` otherwise. -/
def hexVal (c : Nat) : Option Nat :=
  if 48 ≤ c ∧ c ≤ 57 then some (c - 48)
  else if 97 ≤ c ∧ c ≤ 102 then some (c - 87)
  else if 65 ≤ c ∧ c ≤ 70 then some (c - 55)
  else none

/-- `Buffer.from(s, 'hex')`: decodes pairs of hex digits and stops at the
first invalid pair or dangling character (Node truncates, it never
throws). -/
def hexDecode : Chars → Bytes
  | c1 :: c2 :: rest =>
    match hexVal c1, hexVal c2 with
    | some h, some l => (16 * h + l) :: hexDecode rest
    | _, _ => []
  | _ => []

/-! ### Splitting and joining on `:` -/

/-- One step of `String.prototype.split(':')`, read right to left. -/
def splitStep (c : Nat) (acc : List Chars) : List Chars :=
  if c = colonCode then [] :: acc
  else
    match acc with
    | s :: rest => (c :: s) :: rest
    | [] => [[c]]

/-- `s.split(':')` — always returns at least one segment
(`''.split(':') === ['']`). -/
def splitOnColon (s : Chars) : List Chars :=
  s.foldr splitStep [[]]

/-- Join segments with the `:` delimiter (template-literal concatenation
in `encrypt`). -/
def joinColon : List Chars → Chars
  | [] => []
  | [s] => s
  | s :: rest => s ++ colonCode :: joinColon rest

/-! ### Models of the Node `crypto` primitives -/

/-- One mixing step of the pseudorandom byte model. -/
def mixStep (a b : Nat) : Nat := (a * 131 + b + 1) % 65521

/-- Model pseudorandom function: one byte determined by `data` and the
index `n`.  Stands in for the SHA-256-based primitives of Node `crypto`;
all the development needs of them is determinism. -/
def prfByte (data : Bytes) (n : Nat) : Nat :=
  (data.foldl mixStep (n + 1)) % 256

/-- Model of `crypto.pbkdf2Sync(secret, salt, iterations, keyLength,
'sha256')`: a deterministic function of all four arguments producing
`keyLength` bytes. -/
def pbkdf2Sync (secret salt : Bytes) (iterations keyLength : Nat) : Bytes :=
  (List.range keyLength).map (fun j => prfByte (secret ++ salt) (iterations + j))

/-- Byte `i` of the model AES-256-CTR-style keystream for (key, iv). -/
def ksByte (key iv : Bytes) (i : Nat) : Nat :=
  prfByte (key ++ iv) (2 * i)

/-- XOR a byte sequence with the keystream starting at position `i`:
the action of `cipher.update`/`decipher.update` under the model cipher. -/
def xorStream (key iv : Bytes) (i : Nat) : Bytes → Bytes
  | [] => []
  | b :: rest => (b ^^^ ksByte key iv i) :: xorStream key iv (i + 1) rest

/-- Polynomial hash of the ciphertext over the field with 257 elements —
the structural model of GHASH: position-sensitive, and any single-symbol
change of the input changes the value. -/
def polyCt : Bytes → Nat
  | [] => 0
  | b :: rest => (b + 256 * polyCt rest) % 257

/-- Key- and nonce-dependent mask added to the polynomial hash. -/
def tagPad (key iv : Bytes) : Nat := prfByte (key ++ iv) 1 % 257

/-- Value of the model GCM authentication tag. -/
def tagNat (key iv ct : Bytes) : Nat := (polyCt ct + tagPad key iv) % 257

/-- Encode a tag value in the 16 tag bytes (`TAG_LENGTH = 16`),
little-endian in the first two bytes. -/
def tagBytes16 (n : Nat) : Bytes :=
  n % 256 :: n / 256 % 256 :: List.replicate 14 0

/-- `cipher.getAuthTag()` under the model cipher. -/
def getAuthTag (key iv ct : Bytes) : Bytes := tagBytes16 (tagNat key iv ct)

/-! ### The encryption utility (`src/unnamed/part_006`) -/

/-- `ALGORITHM = 'aes-256-gcm'` fixes a 12-to-16-byte tag and 32-byte key;
the explicit constants of the file. -/
def IV_LENGTH : Nat := 16
def SALT_LENGTH : Nat := 64
def TAG_LENGTH : Nat := 16
def KEY_LENGTH : Nat := 32
def ITERATIONS : Nat := 100000

/-- Process-wide configuration: `process.env.ENCRYPTION_SECRET`,
`none` when unset (or set to the empty string, which the falsiness
checks treat identically). -/
structure Config where
  encryptionSecret : Option Bytes
deriving Repr, DecidableEq

/-- `deriveKey(secret, salt)`. -/
def deriveKey (secret salt : Bytes) : Bytes :=
  pbkdf2Sync secret salt ITERATIONS KEY_LENGTH

/-- Internal error classification of `encrypt`: the two throw sites
inside its `try` block. -/
inductive EncErr where
  | invalidInput
  | noSecret
deriving Repr, DecidableEq

/-- Internal error classification of `decrypt`: its own throw sites plus
the failures of the library calls. -/
inductive DecErr where
  | invalidInput   -- `!encryptedText`
  | noSecret       -- `!process.env.ENCRYPTION_SECRET`
  | invalidFormat  -- `parts.length !== 4`
  | cipherInit     -- `createDecipheriv` rejects an empty GCM iv
  | authFailed     -- `decipher.final` tag verification failure
deriving Repr, DecidableEq

/-- Body of `encrypt` before the catch-all handler: salt and iv are the
outputs of the two `crypto.randomBytes` calls of that invocation, passed
explicitly. -/
def encryptCore (cfg : Config) (salt iv text : Bytes) :
    Except EncErr Chars :=
  if text = [] then .error .invalidInput
  else
    match cfg.encryptionSecret with
    | none => .error .noSecret
    | some secret =>
      let key := deriveKey secret salt
      let encrypted := xorStream key iv 0 text
      let authTag := getAuthTag key iv encrypted
      .ok (joinColon [hexEncode salt, hexEncode iv,
                      hexEncode authTag, hexEncode encrypted])

/-- `encrypt`: the catch-all handler rethrows every failure as the one
generic `Error('Failed to encrypt data')`. -/
def encrypt (cfg : Config) (salt iv text : Bytes) : Except String Chars :=
  (encryptCore cfg salt iv text).mapError (fun _ => "Failed to encrypt data")

/-- Body of `decrypt` before the catch-all handler. -/
def decryptCore (cfg : Config) (encryptedText : Chars) :
    Except DecErr Bytes :=
  if encryptedText = [] then .error .invalidInput
  else
    match cfg.encryptionSecret with
    | none => .error .noSecret
    | some secret =>
      match splitOnColon encryptedText with
      | [saltHex, ivHex, tagHex, ctHex] =>
        let salt := hexDecode saltHex
        let iv := hexDecode ivHex
        let authTag := hexDecode tagHex
        let ct := hexDecode ctHex
        let key := deriveKey secret salt
        if iv = [] then .error .cipherInit
        else
          let decrypted := xorStream key iv 0 ct
          if authTag = getAuthTag key iv ct then .ok decrypted
          else .error .authFailed
      | _ => .error .invalidFormat

/-- `decrypt`: the catch-all handler rethrows every failure as the one
generic `Error('Failed to decrypt data')`. -/
def decrypt (cfg : Config) (encryptedText : Chars) : Except String Bytes :=
  (decryptCore cfg encryptedText).mapError (fun _ => "Failed to decrypt data")

/-- `isEncrypted`: format sniff used elsewhere in the repo. -/
def isEncrypted (text : Chars) : Bool :=
  decide (text ≠ []) && decide ((splitOnColon text).length = 4)

/-!
## Part II — the credential controller
(`src/backend/src/controllers/profileController.js`, with the provider
registry of `src/backend/src/utils/aiHelper.js`)

The controller handlers are embedded as pure functions from the request
data and the user's stored record to a response and the record as
persisted after the call.  The two external effects are passed as
function parameters: `validate` (the live provider call of
`validateApiKey`) and `enc` (the cipher's `encrypt`, which for the
byte-level cipher of Part I is instantiated with it).  The stored-secret
type is a parameter `σ`, since the handlers never inspect secret values.
-/

def geminiId : String := "gemini"
def grokId : String := "grok"
def geminiDefaultModel : String := "gemini-2.5-flash-lite"
def grokDefaultModel : String := "llama-3.3-70b-versatile"
def emptyStr : String := ""

/-- The `gemini` entry of `AVAILABLE_MODELS` in `aiHelper.js`. -/
def geminiModels : List String :=
  ["gemini-2.5-flash-lite",
   "gemini-2.5-flash-preview-09-2025",
   "gemini-2.5-flash-lite-preview-09-2025",
   "gemini-2.0-flash",
   "gemini-2.0-flash-lite"]

/-- The `grok` entry of `AVAILABLE_MODELS` in `aiHelper.js`. -/
def grokModels : List String :=
  ["llama-3.3-70b-versatile",
   "llama-3.1-8b-instant",
   "meta-llama/llama-4-scout-17b-16e-instruct",
   "openai/gpt-oss-120b"]

/-- `getAvailableModels(provider)`: `AVAILABLE_MODELS[provider] || []`. -/
def getAvailableModels (provider : String) : List String :=
  if provider = geminiId then geminiModels
  else if provider = grokId then grokModels
  else []

/-- The default-model ternary of `setAIConfig` (line 159):
`provider === 'gemini' ? 'gemini-2.5-flash-lite' : 'llama-3.3-70b-versatile'`. -/
def defaultModelFor (provider : String) : String :=
  if provider = geminiId then geminiDefaultModel else grokDefaultModel

/-- The per-user stored fields the credential handlers touch, on the
`User` document: current encrypted key, legacy encrypted key, provider
and model.  `none` models an absent (null/undefined) field. -/
structure UserRec (σ : Type) where
  aiApiKey : Option σ
  geminiApiKey : Option σ
  aiProvider : Option String
  aiModel : Option String
deriving Repr, DecidableEq

/-- Responses of the two set handlers, by exit path. -/
inductive SetResp where
  | invalidKey                          -- 400 `Please provide a valid API key`
  | invalidProvider                     -- 400 provider not gemini/grok
  | unsupportedModel (available : List String)  -- 400 model not available
  | invalidCredential (msg : String)    -- 400 from the validator
  | serverFailure (msg : String)        -- 500 from the outer catch
  | saved (provider model : String)     -- 200 success payload
deriving Repr, DecidableEq

/-- ASCII whitespace for the `trim` model. -/
def isWS (c : Char) : Bool :=
  c == ' ' || c == '\t' || c == '\n' || c == '\r'

/-- Model of `String.prototype.trim()`: strip leading and trailing
whitespace.  (Executable, unlike `String.trim`, whose auxiliaries do not
reduce in the kernel.) -/
def jsTrim (s : String) : String :=
  String.mk (((s.data.dropWhile isWS).reverse.dropWhile isWS).reverse)

/-- `model || (provider === 'gemini' ? … : …)`: the `||` takes the
default both when `model` is absent and when it is the empty string. -/
def selectedModelOf (provider : String) (model : Option String) : String :=
  match model with
  | none => defaultModelFor provider
  | some m => if m = emptyStr then defaultModelFor provider else m

/-- `setAIConfig(req)`: validates the key shape, the provider, the model
against the registry, then the live credential, and only then encrypts
and persists `{aiApiKey, aiProvider, aiModel}`.  Returns the response
and the record as persisted. -/
def setAIConfig {σ : Type}
    (validate : String → String → String → Except String Unit)
    (enc : String → Except String σ)
    (apiKey : Option String) (providerArg : Option String)
    (model : Option String) (user : UserRec σ) : SetResp × UserRec σ :=
  match apiKey with
  | none => (.invalidKey, user)
  | some k =>
    if jsTrim k = emptyStr then (.invalidKey, user)
    else if ¬(providerArg.getD geminiId = geminiId ∨
        providerArg.getD geminiId = grokId) then
      (.invalidProvider, user)
    else if selectedModelOf (providerArg.getD geminiId) model ∉
        getAvailableModels (providerArg.getD geminiId) then
      (.unsupportedModel (getAvailableModels (providerArg.getD geminiId)), user)
    else
      match validate k (providerArg.getD geminiId)
          (selectedModelOf (providerArg.getD geminiId) model) with
      | .error msg => (.invalidCredential msg, user)
      | .ok _ =>
        match enc k with
        | .error msg => (.serverFailure msg, user)
        | .ok e =>
          (.saved (providerArg.getD geminiId)
             (selectedModelOf (providerArg.getD geminiId) model),
           { user with aiApiKey := some e,
                       aiProvider := some (providerArg.getD geminiId),
                       aiModel := some (selectedModelOf
                         (providerArg.getD geminiId) model) })

/-- `setApiKey(req)` — the legacy endpoint: always Gemini with its
default model, and on success writes the one freshly produced ciphertext
to both `aiApiKey` and `geminiApiKey`. -/
def setApiKey {σ : Type}
    (validate : String → String → String → Except String Unit)
    (enc : String → Except String σ)
    (apiKey : Option String) (user : UserRec σ) : SetResp × UserRec σ :=
  match apiKey with
  | none => (.invalidKey, user)
  | some k =>
    if jsTrim k = emptyStr then (.invalidKey, user)
    else
      match validate k geminiId geminiDefaultModel with
      | .error msg => (.invalidCredential msg, user)
      | .ok _ =>
        match enc k with
        | .error msg => (.serverFailure msg, user)
        | .ok e =>
          (.saved geminiId geminiDefaultModel,
           { aiApiKey := some e, geminiApiKey := some e,
             aiProvider := some geminiId, aiModel := some geminiDefaultModel })

/-- The `data` payload of `getAIConfig` — no field of it holds secret
material. -/
structure AIConfigData where
  hasApiKey : Bool
  provider : String
  model : String
  availableGemini : List String
  availableGrok : List String
deriving Repr, DecidableEq

/-- `getAIConfig(req)`:
`hasApiKey = !!(user.aiApiKey || user.geminiApiKey)`, with `||`-defaults
for provider and model. -/
def getAIConfig {σ : Type} (user : UserRec σ) : AIConfigData :=
  { hasApiKey := user.aiApiKey.isSome || user.geminiApiKey.isSome
    provider := user.aiProvider.getD geminiId
    model := user.aiModel.getD geminiDefaultModel
    availableGemini := getAvailableModels geminiId
    availableGrok := getAvailableModels grokId }

/-- `deleteAIConfig(req)`: nulls both secret fields, resets provider and
model to the defaults; responds `{hasApiKey:false}`. -/
def deleteAIConfig {σ : Type} (_user : UserRec σ) : Bool × UserRec σ :=
  (false,
   { aiApiKey := none, geminiApiKey := none,
     aiProvider := some geminiId, aiModel := some geminiDefaultModel })

/-- Error classification of the secret-resolution step shared by
`validateStoredAIConfig` and the recipe/detection controllers. -/
inductive ResolveErr where
  | notConfigured          -- 404 `No API key configured`
  | decryptFailed (msg : String)  -- a throw from `decrypt` propagates
deriving Repr, DecidableEq

/-- The stored-secret resolution of `validateStoredAIConfig`
(lines 395-403): 404 when both fields are absent, otherwise
`user.aiApiKey ? decrypt(user.aiApiKey) : decrypt(user.geminiApiKey)`. -/
def resolveSecretForUse {σ τ : Type} (dec : σ → Except String τ)
    (user : UserRec σ) : Except ResolveErr τ :=
  match user.aiApiKey, user.geminiApiKey with
  | none, none => .error .notConfigured
  | some k, _ => (dec k).mapError (fun m => .decryptFailed m)
  | none, some g => (dec g).mapError (fun m => .decryptFailed m)

/-- `validateStoredAIConfig(req)`: resolves the stored secret, then
validates it with the `||`-defaulted provider and model; returns them on
success. -/
def validateStoredAIConfig {σ τ : Type}
    (validate : τ → String → String → Except String Unit)
    (dec : σ → Except String τ) (user : UserRec σ) :
    Except ResolveErr (String × String) :=
  match resolveSecretForUse dec user with
  | .error e => .error e
  | .ok key =>
    let provider := user.aiProvider.getD geminiId
    let model := user.aiModel.getD geminiDefaultModel
    match validate key provider model with
    | .error msg => .error (.decryptFailed msg)
    | .ok _ => .ok (provider, model)

/-!
## Part III — lemmas about the embedded definitions
-/

/-- The ciphertext `encrypt` produces from master secret, salt, iv and
plaintext (the `encrypted` local of its body). -/
def cipherText (ms salt iv text : Bytes) : Bytes :=
  xorStream (deriveKey ms salt) iv 0 text

/-- The authentication tag `encrypt` produces (the `authTag` local). -/
def cipherTag (ms salt iv text : Bytes) : Bytes :=
  getAuthTag (deriveKey ms salt) iv (cipherText ms salt iv text)

/-- The four hex segments of `encrypt`'s return value, in order. -/
def encParts (ms salt iv text : Bytes) : List Chars :=
  [hexEncode salt, hexEncode iv,
   hexEncode (cipherTag ms salt iv text),
   hexEncode (cipherText ms salt iv text)]

/-- No character of `s` is the `:` delimiter. -/
def noColon (s : Chars) : Prop := ∀ c ∈ s, c ≠ colonCode

theorem hexVal_lt {c v : Nat} (h : hexVal c = some v) : v < 16 := by
  unfold hexVal at h
  split_ifs at h with h1 h2 h3 <;>
    simp only [Option.some.injEq] at h <;> omega

theorem hexVal_hexDigitChar {n : Nat} (h : n < 16) :
    hexVal (hexDigitChar n) = some n := by
  interval_cases n <;> decide

theorem hexDigitChar_ne_colon {n : Nat} (h : n < 16) :
    hexDigitChar n ≠ colonCode := by
  interval_cases n <;> decide

theorem hexChar_ne_colon {c : Nat} (h : (hexVal c).isSome) : c ≠ colonCode := by
  intro hc; subst hc; simp [hexVal, colonCode] at h

theorem hexEncode_cons (b : Nat) (bs : Bytes) :
    hexEncode (b :: bs) =
      hexDigitChar (b / 16) :: hexDigitChar (b % 16) :: hexEncode bs := by
  simp [hexEncode]

theorem hexEncode_noColon (bs : Bytes) (h : ∀ b ∈ bs, b < 256) :
    noColon (hexEncode bs) := by
  induction bs with
  | nil => intro c hc; simp [hexEncode] at hc
  | cons b bs ih =>
    have hb : b < 256 := h b (by simp)
    intro c hc
    rw [hexEncode_cons] at hc
    simp only [List.mem_cons] at hc
    rcases hc with hc | hc | hc
    · exact hc ▸ hexDigitChar_ne_colon (by omega)
    · exact hc ▸ hexDigitChar_ne_colon (Nat.mod_lt _ (by omega))
    · exact ih (fun x hx => h x (by simp [hx])) c hc

theorem hexEncode_isHex (bs : Bytes) (h : ∀ b ∈ bs, b < 256) :
    ∀ c ∈ hexEncode bs, (hexVal c).isSome := by
  induction bs with
  | nil => intro c hc; simp [hexEncode] at hc
  | cons b bs ih =>
    have hb : b < 256 := h b (by simp)
    intro c hc
    rw [hexEncode_cons] at hc
    simp only [List.mem_cons] at hc
    rcases hc with hc | hc | hc
    · rw [hc, hexVal_hexDigitChar (by omega)]; rfl
    · rw [hc, hexVal_hexDigitChar (Nat.mod_lt _ (by omega))]; rfl
    · exact ih (fun x hx => h x (by simp [hx])) c hc

theorem hexDecode_hexEncode (bs : Bytes) (h : ∀ b ∈ bs, b < 256) :
    hexDecode (hexEncode bs) = bs := by
  induction bs with
  | nil => rfl
  | cons b bs ih =>
    have hb : b < 256 := h b (by simp)
    rw [hexEncode_cons]
    unfold hexDecode
    rw [hexVal_hexDigitChar (by omega),
        hexVal_hexDigitChar (Nat.mod_lt _ (by omega))]
    simp only
    rw [ih (fun x hx => h x (by simp [hx]))]
    congr 1
    omega

theorem foldr_splitStep_noColon (s : Chars) (hs : noColon s)
    (h : Chars) (t : List Chars) :
    s.foldr splitStep (h :: t) = (s ++ h) :: t := by
  induction s with
  | nil => rfl
  | cons c s ih =>
    have hc : c ≠ colonCode := hs c (by simp)
    rw [List.foldr_cons, ih (fun x hx => hs x (by simp [hx]))]
    simp [splitStep, hc]

theorem splitOnColon_noColon (s : Chars) (hs : noColon s) :
    splitOnColon s = [s] := by
  unfold splitOnColon
  rw [foldr_splitStep_noColon s hs [] []]
  simp

theorem splitOnColon_append (s : Chars) (hs : noColon s) (r : Chars) :
    splitOnColon (s ++ colonCode :: r) = s :: splitOnColon r := by
  unfold splitOnColon
  rw [List.foldr_append, List.foldr_cons]
  have h1 : splitStep colonCode (r.foldr splitStep [[]]) =
      [] :: r.foldr splitStep [[]] := by simp [splitStep]
  rw [h1, foldr_splitStep_noColon s hs [] (r.foldr splitStep [[]])]
  simp

theorem joinColon_four (a b c d : Chars) :
    joinColon [a, b, c, d] =
      a ++ colonCode :: (b ++ colonCode :: (c ++ colonCode :: d)) := by
  simp [joinColon]

theorem splitOnColon_joinColon_four (a b c d : Chars)
    (ha : noColon a) (hb : noColon b) (hc : noColon c) (hd : noColon d) :
    splitOnColon (joinColon [a, b, c, d]) = [a, b, c, d] := by
  rw [joinColon_four,
      splitOnColon_append a ha, splitOnColon_append b hb,
      splitOnColon_append c hc, splitOnColon_noColon d hd]

theorem joinColon_four_ne_nil (a b c d : Chars) :
    joinColon [a, b, c, d] ≠ [] := by
  rw [joinColon_four]
  cases a <;> simp

/-! ### Keystream and tag lemmas -/

theorem xorStream_xorStream (key iv : Bytes) :
    ∀ (i : Nat) (bs : Bytes),
      xorStream key iv i (xorStream key iv i bs) = bs := by
  intro i bs
  induction bs generalizing i with
  | nil => rfl
  | cons b rest ih =>
    simp only [xorStream]
    rw [ih (i + 1), Nat.xor_assoc, Nat.xor_self, Nat.xor_zero]

theorem ksByte_lt (key iv : Bytes) (i : Nat) : ksByte key iv i < 256 := by
  unfold ksByte prfByte
  exact Nat.mod_lt _ (by omega)

theorem xorStream_lt (key iv : Bytes) :
    ∀ (i : Nat) (bs : Bytes), (∀ b ∈ bs, b < 256) →
      ∀ b' ∈ xorStream key iv i bs, b' < 256 := by
  intro i bs
  induction bs generalizing i with
  | nil => intro _ b' hb'; simp [xorStream] at hb'
  | cons b rest ih =>
    intro h b' hb'
    unfold xorStream at hb'
    rcases List.mem_cons.mp hb' with hb' | hb'
    · subst hb'
      have h1 : b < 2 ^ 8 := h b (by simp)
      have h2 : ksByte key iv i < 2 ^ 8 := ksByte_lt key iv i
      exact Nat.xor_lt_two_pow h1 h2
    · exact ih (i + 1) (fun x hx => h x (by simp [hx])) b' hb'

theorem polyCt_lt (ct : Bytes) : polyCt ct < 257 := by
  cases ct with
  | nil => simp [polyCt]
  | cons b rest => exact Nat.mod_lt _ (by omega)

theorem tagNat_lt (key iv ct : Bytes) : tagNat key iv ct < 257 :=
  Nat.mod_lt _ (by omega)

/-- 256 is invertible modulo 257, so multiplication by it cancels. -/
theorem mul256_mod257_cancel {t t' : Nat} (ht : t < 257) (ht' : t' < 257)
    (h : 256 * t % 257 = 256 * t' % 257) : t = t' := by
  have h1 : Nat.ModEq 257 (256 * t) (256 * t') := h
  have h2 : Nat.ModEq 257 (256 * (256 * t)) (256 * (256 * t')) :=
    h1.mul_left 256
  have h3 : Nat.ModEq 257 65536 1 := by decide
  have h4 : Nat.ModEq 257 (65536 * t) t := by
    simpa using h3.mul_right t
  have h5 : Nat.ModEq 257 (65536 * t') t' := by
    simpa using h3.mul_right t'
  have h6 : Nat.ModEq 257 t t' := by
    calc t ≡ 65536 * t [MOD 257] := h4.symm
      _ = 256 * (256 * t) := by ring
      _ ≡ 256 * (256 * t') [MOD 257] := h2
      _ = 65536 * t' := by ring
      _ ≡ t' [MOD 257] := h5
  have h7 : t % 257 = t' % 257 := h6
  omega

theorem add_mul256_mod257_cancel {x t t' : Nat} (ht : t < 257) (ht' : t' < 257)
    (h : (x + 256 * t) % 257 = (x + 256 * t') % 257) : t = t' := by
  have h1 : Nat.ModEq 257 (x + 256 * t) (x + 256 * t') := h
  have h2 : Nat.ModEq 257 (256 * t) (256 * t') :=
    Nat.ModEq.add_left_cancel' x h1
  exact mul256_mod257_cancel ht ht' h2

theorem polyCt_ne_of_upd :
    ∀ (pre : Bytes) (b b' : Nat) (suf : Bytes), b < 257 → b' < 257 → b ≠ b' →
      polyCt (pre ++ b :: suf) ≠ polyCt (pre ++ b' :: suf) := by
  intro pre
  induction pre with
  | nil =>
    intro b b' suf hb hb' hne heq
    simp only [List.nil_append, polyCt] at heq
    have h1 : Nat.ModEq 257 (b + 256 * polyCt suf) (b' + 256 * polyCt suf) :=
      heq
    have h2 : Nat.ModEq 257 b b' :=
      Nat.ModEq.add_right_cancel' (256 * polyCt suf) h1
    have h3 : b % 257 = b' % 257 := h2
    omega
  | cons x pre ih =>
    intro b b' suf hb hb' hne heq
    simp only [List.cons_append, polyCt] at heq
    exact ih b b' suf hb hb' hne
      (add_mul256_mod257_cancel (polyCt_lt _) (polyCt_lt _) heq)

theorem tagNat_ne_of_polyCt_ne (key iv : Bytes) {ct ct' : Bytes}
    (h : polyCt ct ≠ polyCt ct') : tagNat key iv ct ≠ tagNat key iv ct' := by
  intro heq
  unfold tagNat at heq
  have h1 : Nat.ModEq 257 (polyCt ct + tagPad key iv)
      (polyCt ct' + tagPad key iv) := heq
  have h2 : Nat.ModEq 257 (polyCt ct) (polyCt ct') :=
    Nat.ModEq.add_right_cancel' (tagPad key iv) h1
  have h3 : polyCt ct % 257 = polyCt ct' % 257 := h2
  have h4 := polyCt_lt ct
  have h5 := polyCt_lt ct'
  omega

theorem tagBytes16_inj {n m : Nat} (hn : n < 65536) (hm : m < 65536)
    (h : tagBytes16 n = tagBytes16 m) : n = m := by
  unfold tagBytes16 at h
  simp only [List.cons.injEq] at h
  omega

theorem tagBytes16_lt (n : Nat) : ∀ b ∈ tagBytes16 n, b < 256 := by
  intro b hb
  unfold tagBytes16 at hb
  simp only [List.mem_cons] at hb
  rcases hb with hb | hb | hb
  · subst hb; exact Nat.mod_lt _ (by omega)
  · subst hb; exact Nat.mod_lt _ (by omega)
  · have := List.eq_of_mem_replicate hb; omega

theorem getAuthTag_lt (key iv ct : Bytes) : ∀ b ∈ getAuthTag key iv ct, b < 256 :=
  tagBytes16_lt _

theorem getAuthTag_ne_of_polyCt_ne (key iv : Bytes) {ct ct' : Bytes}
    (h : polyCt ct ≠ polyCt ct') :
    getAuthTag key iv ct ≠ getAuthTag key iv ct' := by
  unfold getAuthTag
  intro heq
  exact tagNat_ne_of_polyCt_ne key iv h
    (tagBytes16_inj (by have := tagNat_lt key iv ct; omega)
      (by have := tagNat_lt key iv ct'; omega) heq)

theorem append_cons_ne {α : Type} (pre : List α) {b b' : α} (suf : List α)
    (h : b ≠ b') : pre ++ b :: suf ≠ pre ++ b' :: suf := by
  intro heq
  have h1 := List.append_cancel_left heq
  simp only [List.cons.injEq] at h1
  exact h h1.1

/-- Changing one character of a hex encoding to a hex character with a
different value changes exactly one decoded byte. -/
theorem hexDecode_update :
    ∀ (bs : Bytes) (pre : Chars) (c c' : Nat) (suf : Chars),
      (∀ b ∈ bs, b < 256) →
      hexEncode bs = pre ++ c :: suf →
      (hexVal c').isSome →
      hexVal c ≠ hexVal c' →
      ∃ pre' b0 b0' suf', bs = pre' ++ b0 :: suf' ∧
        hexDecode (pre ++ c' :: suf) = pre' ++ b0' :: suf' ∧
        b0 ≠ b0' ∧ b0 < 256 ∧ b0' < 256 := by
  intro bs
  induction bs with
  | nil =>
    intro pre c c' suf _ henc _ _
    simp [hexEncode] at henc
  | cons b bs ih =>
    intro pre c c' suf hlt henc hc' hne
    have hb : b < 256 := hlt b (by simp)
    have hbs : ∀ x ∈ bs, x < 256 := fun x hx => hlt x (by simp [hx])
    rw [hexEncode_cons] at henc
    rcases Option.isSome_iff_exists.mp hc' with ⟨v', hv'⟩
    have hv'lt : v' < 16 := hexVal_lt hv'
    rcases pre with _ | ⟨p1, pre⟩
    · -- the changed character is the high nibble of `b`
      simp only [List.nil_append, List.cons.injEq] at henc
      obtain ⟨hc, hsuf⟩ := henc
      refine ⟨[], b, 16 * v' + b % 16, bs, by simp, ?_, ?_, hb, by omega⟩
      · rw [← hsuf]
        simp only [List.nil_append]
        unfold hexDecode
        rw [hv', hexVal_hexDigitChar (Nat.mod_lt _ (by omega))]
        rw [hexDecode_hexEncode bs hbs]
      · subst hc
        rw [hexVal_hexDigitChar (by omega)] at hne
        rw [hv'] at hne
        simp only [ne_eq, Option.some.injEq] at hne
        omega
    · rcases pre with _ | ⟨p2, pre⟩
      · -- the changed character is the low nibble of `b`
        simp only [List.cons_append, List.nil_append, List.cons.injEq] at henc
        obtain ⟨hp1, hc, hsuf⟩ := henc
        refine ⟨[], b, 16 * (b / 16) + v', bs, by simp, ?_, ?_, hb, by omega⟩
        · rw [← hp1, ← hsuf]
          simp only [List.cons_append, List.nil_append]
          unfold hexDecode
          rw [hv', hexVal_hexDigitChar (by omega)]
          rw [hexDecode_hexEncode bs hbs]
        · subst hc
          rw [hexVal_hexDigitChar (Nat.mod_lt _ (by omega))] at hne
          rw [hv'] at hne
          simp only [ne_eq, Option.some.injEq] at hne
          omega
      · -- the changed character is further right: recurse
        simp only [List.cons_append, List.cons.injEq] at henc
        obtain ⟨hp1, hp2, henc⟩ := henc
        obtain ⟨pre', b0, b0', suf', hbs', hdec, hne', hb0, hb0'⟩ :=
          ih pre c c' suf hbs henc hc' hne
        refine ⟨b :: pre', b0, b0', suf', by rw [hbs']; rfl, ?_, hne', hb0, hb0'⟩
        rw [← hp1, ← hp2]
        show hexDecode (hexDigitChar (b / 16) :: hexDigitChar (b % 16) ::
          (pre ++ c' :: suf)) = (b :: pre') ++ b0' :: suf'
        unfold hexDecode
        rw [hexVal_hexDigitChar (by omega),
            hexVal_hexDigitChar (Nat.mod_lt _ (by omega))]
        simp only [List.cons_append]
        rw [hdec]
        congr 1
        omega

/-! ### Evaluation of `encrypt` and `decrypt` on well-formed data -/

theorem encryptCore_eval (ms salt iv text : Bytes) (htext : text ≠ []) :
    encryptCore ⟨some ms⟩ salt iv text =
      Except.ok (joinColon (encParts ms salt iv text)) := by
  unfold encryptCore
  rw [if_neg htext]
  rfl

theorem encrypt_eval (ms salt iv text : Bytes) (htext : text ≠ []) :
    encrypt ⟨some ms⟩ salt iv text =
      Except.ok (joinColon (encParts ms salt iv text)) := by
  unfold encrypt
  rw [encryptCore_eval ms salt iv text htext]
  rfl

theorem decryptCore_eval (ms : Bytes) (sh ihx th ch : Chars)
    (h1 : noColon sh) (h2 : noColon ihx) (h3 : noColon th) (h4 : noColon ch) :
    decryptCore ⟨some ms⟩ (joinColon [sh, ihx, th, ch]) =
      (if hexDecode ihx = [] then Except.error DecErr.cipherInit
       else if hexDecode th =
           getAuthTag (deriveKey ms (hexDecode sh)) (hexDecode ihx)
             (hexDecode ch) then
         Except.ok (xorStream (deriveKey ms (hexDecode sh)) (hexDecode ihx) 0
           (hexDecode ch))
       else Except.error DecErr.authFailed) := by
  unfold decryptCore
  rw [if_neg (joinColon_four_ne_nil sh ihx th ch)]
  rw [splitOnColon_joinColon_four sh ihx th ch h1 h2 h3 h4]

theorem decrypt_of_core_ok {cfg : Config} {s : Chars} {v : Bytes}
    (h : decryptCore cfg s = Except.ok v) :
    decrypt cfg s = Except.ok v := by
  unfold decrypt
  rw [h]
  rfl

theorem decrypt_of_core_error {cfg : Config} {s : Chars} {e : DecErr}
    (h : decryptCore cfg s = Except.error e) :
    decrypt cfg s = Except.error "Failed to decrypt data" := by
  unfold decrypt
  rw [h]
  rfl

theorem decrypt_encrypt_core (ms salt iv text : Bytes)
    (htb : ∀ b ∈ text, b < 256)
    (hsb : ∀ b ∈ salt, b < 256) (hib : ∀ b ∈ iv, b < 256)
    (hiv : iv ≠ []) :
    decryptCore ⟨some ms⟩ (joinColon (encParts ms salt iv text)) =
      Except.ok text := by
  have hct : ∀ b ∈ cipherText ms salt iv text, b < 256 :=
    xorStream_lt _ _ 0 text htb
  have htag : ∀ b ∈ cipherTag ms salt iv text, b < 256 := getAuthTag_lt _ _ _
  show decryptCore ⟨some ms⟩ (joinColon [hexEncode salt, hexEncode iv,
    hexEncode (cipherTag ms salt iv text),
    hexEncode (cipherText ms salt iv text)]) = Except.ok text
  rw [decryptCore_eval ms _ _ _ _ (hexEncode_noColon _ hsb)
    (hexEncode_noColon _ hib) (hexEncode_noColon _ htag)
    (hexEncode_noColon _ hct)]
  rw [hexDecode_hexEncode salt hsb, hexDecode_hexEncode iv hib,
      hexDecode_hexEncode _ htag, hexDecode_hexEncode _ hct]
  have htageq : cipherTag ms salt iv text =
      getAuthTag (deriveKey ms salt) iv (cipherText ms salt iv text) := rfl
  rw [if_neg hiv, if_pos htageq]
  unfold cipherText
  rw [xorStream_xorStream]

/-!
## Part IV — the claims
-/

/-- C1.  Round-trip: with the MasterSecret set and fixed, for every
non-empty plaintext (byte string) and every salt/nonce pair of the
lengths `encrypt` draws from `crypto.randomBytes`,
`decrypt (encrypt s) = s`. -/
theorem roundTrip_decrypt_encrypt (ms salt iv text : Bytes)
    (htext : text ≠ []) (htb : ∀ b ∈ text, b < 256)
    (hsb : ∀ b ∈ salt, b < 256) (hib : ∀ b ∈ iv, b < 256)
    (_hsl : salt.length = SALT_LENGTH) (hil : iv.length = IV_LENGTH) :
    ∀ e, encrypt ⟨some ms⟩ salt iv text = Except.ok e →
      decrypt ⟨some ms⟩ e = Except.ok text := by
  intro e he
  have hiv : iv ≠ [] := by
    intro h
    rw [h] at hil
    simp [IV_LENGTH] at hil
  rw [encrypt_eval ms salt iv text htext] at he
  simp only [Except.ok.injEq] at he
  rw [← he]
  exact decrypt_of_core_ok (decrypt_encrypt_core ms salt iv text htb hsb hib hiv)

/-- Concrete data for the cipher witnesses. -/
def msW : Bytes := [107]
def saltW : Bytes := List.replicate 64 1
def ivW : Bytes := List.replicate 16 2
def textW : Bytes := [104, 105]
def cfgW : Config := ⟨some msW⟩
def encW : Chars := (encrypt cfgW saltW ivW textW).toOption.getD []

/-- Witness for C1 at a concrete master secret, salt, nonce and
plaintext. -/
theorem roundTrip_decrypt_encrypt_witness :
    decrypt cfgW encW = Except.ok textW :=
  roundTrip_decrypt_encrypt msW saltW ivW textW (by decide) (by decide)
    (by decide) (by decide) (by decide) (by decide) encW (by rfl)

theorem noColon_update {pre suf : Chars} {c c' : Nat}
    (h : noColon (pre ++ c :: suf)) (hc' : c' ≠ colonCode) :
    noColon (pre ++ c' :: suf) := by
  intro x hx
  rcases List.mem_append.mp hx with hx | hx
  · exact h x (List.mem_append_left _ hx)
  · rcases List.mem_cons.mp hx with hx | hx
    · subst hx; exact hc'
    · exact h x (by simp [hx])

/-- C2 (amended).  Changing a single hex character of the ciphertext
segment or of the tag segment of an `encrypt` output to a hex character
with a different value makes `decrypt` fail: internally the failure is
the tag-verification branch (`DecErr.authFailed`), and the surfaced
error is the generic `Failed to decrypt data`; in particular no such
tampered input ever decrypts to a different plaintext.  (A case-only
change such as `a` → `A` decodes identically and is not detected — see
the counterexample — and the surfaced error is the same one raised for
malformed inputs, so it is not distinguishable by callers.) -/
theorem tamper_detection (ms salt iv text : Bytes)
    (htext : text ≠ []) (htb : ∀ b ∈ text, b < 256)
    (hsb : ∀ b ∈ salt, b < 256) (hib : ∀ b ∈ iv, b < 256)
    (_hsl : salt.length = SALT_LENGTH) (hil : iv.length = IV_LENGTH) :
    (∀ pre c c' suf,
      hexEncode (cipherText ms salt iv text) = pre ++ c :: suf →
      (hexVal c').isSome → hexVal c ≠ hexVal c' →
      decryptCore ⟨some ms⟩ (joinColon [hexEncode salt, hexEncode iv,
          hexEncode (cipherTag ms salt iv text), pre ++ c' :: suf]) =
        Except.error DecErr.authFailed ∧
      decrypt ⟨some ms⟩ (joinColon [hexEncode salt, hexEncode iv,
          hexEncode (cipherTag ms salt iv text), pre ++ c' :: suf]) =
        Except.error "Failed to decrypt data") ∧
    (∀ pre c c' suf,
      hexEncode (cipherTag ms salt iv text) = pre ++ c :: suf →
      (hexVal c').isSome → hexVal c ≠ hexVal c' →
      decryptCore ⟨some ms⟩ (joinColon [hexEncode salt, hexEncode iv,
          pre ++ c' :: suf, hexEncode (cipherText ms salt iv text)]) =
        Except.error DecErr.authFailed ∧
      decrypt ⟨some ms⟩ (joinColon [hexEncode salt, hexEncode iv,
          pre ++ c' :: suf, hexEncode (cipherText ms salt iv text)]) =
        Except.error "Failed to decrypt data") ∧
    encrypt ⟨some ms⟩ salt iv text =
      Except.ok (joinColon (encParts ms salt iv text)) := by
  have hiv : iv ≠ [] := by
    intro h
    rw [h] at hil
    simp [IV_LENGTH] at hil
  have hct : ∀ b ∈ cipherText ms salt iv text, b < 256 :=
    xorStream_lt _ _ 0 text htb
  have htag : ∀ b ∈ cipherTag ms salt iv text, b < 256 := getAuthTag_lt _ _ _
  refine ⟨?_, ?_, encrypt_eval ms salt iv text htext⟩
  · intro pre c c' suf henc hc' hne
    obtain ⟨pre', b0, b0', suf', hbs, hdec, hne', hb0, hb0'⟩ :=
      hexDecode_update (cipherText ms salt iv text) pre c c' suf hct henc hc' hne
    have hnc4 : noColon (pre ++ c' :: suf) :=
      noColon_update (henc ▸ hexEncode_noColon _ hct) (hexChar_ne_colon hc')
    have hcore : decryptCore ⟨some ms⟩ (joinColon [hexEncode salt,
        hexEncode iv, hexEncode (cipherTag ms salt iv text),
        pre ++ c' :: suf]) = Except.error DecErr.authFailed := by
      rw [decryptCore_eval ms _ _ _ _ (hexEncode_noColon _ hsb)
        (hexEncode_noColon _ hib) (hexEncode_noColon _ htag) hnc4]
      rw [hexDecode_hexEncode salt hsb, hexDecode_hexEncode iv hib,
          hexDecode_hexEncode _ htag, hdec]
      rw [if_neg hiv]
      rw [if_neg ?_]
      show cipherTag ms salt iv text ≠
        getAuthTag (deriveKey ms salt) iv (pre' ++ b0' :: suf')
      have h1 : cipherTag ms salt iv text =
          getAuthTag (deriveKey ms salt) iv (pre' ++ b0 :: suf') := by
        unfold cipherTag
        rw [← hbs]
      rw [h1]
      exact getAuthTag_ne_of_polyCt_ne _ _
        (polyCt_ne_of_upd pre' b0 b0' suf' (by omega) (by omega) hne')
    exact ⟨hcore, decrypt_of_core_error hcore⟩
  · intro pre c c' suf henc hc' hne
    obtain ⟨pre', b0, b0', suf', hbs, hdec, hne', hb0, hb0'⟩ :=
      hexDecode_update (cipherTag ms salt iv text) pre c c' suf htag henc hc' hne
    have hnc3 : noColon (pre ++ c' :: suf) :=
      noColon_update (henc ▸ hexEncode_noColon _ htag) (hexChar_ne_colon hc')
    have hcore : decryptCore ⟨some ms⟩ (joinColon [hexEncode salt,
        hexEncode iv, pre ++ c' :: suf,
        hexEncode (cipherText ms salt iv text)]) =
        Except.error DecErr.authFailed := by
      rw [decryptCore_eval ms _ _ _ _ (hexEncode_noColon _ hsb)
        (hexEncode_noColon _ hib) hnc3 (hexEncode_noColon _ hct)]
      rw [hexDecode_hexEncode salt hsb, hexDecode_hexEncode iv hib,
          hexDecode_hexEncode _ hct, hdec]
      rw [if_neg hiv]
      rw [if_neg ?_]
      show pre' ++ b0' :: suf' ≠
        getAuthTag (deriveKey ms salt) iv (cipherText ms salt iv text)
      have h1 : getAuthTag (deriveKey ms salt) iv (cipherText ms salt iv text) =
          pre' ++ b0 :: suf' := hbs
      rw [h1]
      exact append_cons_ne pre' suf' (fun h => hne' h.symm)
    exact ⟨hcore, decrypt_of_core_error hcore⟩

/-- The ciphertext hex of the concrete witness encryption is `ebc5`;
these are the character codes after its first character. -/
def ctHexRestW : Chars := [98, 99, 53]

set_option maxRecDepth 20000 in
/-- Counterexample to C2 as stated: on the concrete `encrypt` output,
changing the single hex character `e` (code 101) of the ciphertext
segment to `E` (code 69) — a different character, still valid hex — does
NOT make `decrypt` fail: hex decoding is case-insensitive, so `decrypt`
succeeds and returns the original plaintext. -/
theorem tamper_case_flip_counterexample :
    encrypt cfgW saltW ivW textW =
      Except.ok (joinColon [hexEncode saltW, hexEncode ivW,
        hexEncode (cipherTag msW saltW ivW textW), 101 :: ctHexRestW]) ∧
    (101 : Nat) ≠ 69 ∧ (hexVal 69).isSome ∧
    decrypt cfgW (joinColon [hexEncode saltW, hexEncode ivW,
        hexEncode (cipherTag msW saltW ivW textW), 69 :: ctHexRestW]) =
      Except.ok textW :=
  ⟨by rfl, by decide, by decide, by rfl⟩

set_option maxRecDepth 20000 in
/-- Witness for the amended C2: changing that same first ciphertext hex
character `e` to `0` (a different nibble value) makes `decrypt` fail
with the tag-verification classification. -/
theorem tamper_detection_witness :
    decryptCore cfgW (joinColon [hexEncode saltW, hexEncode ivW,
        hexEncode (cipherTag msW saltW ivW textW), 48 :: ctHexRestW]) =
      Except.error DecErr.authFailed ∧
    decrypt cfgW (joinColon [hexEncode saltW, hexEncode ivW,
        hexEncode (cipherTag msW saltW ivW textW), 48 :: ctHexRestW]) =
      Except.error "Failed to decrypt data" :=
  (tamper_detection msW saltW ivW textW (by decide) (by decide) (by decide)
    (by decide) (by decide) (by decide)).1 [] 101 48 ctHexRestW
    (by rfl) (by decide) (by decide)

/-- C3 (amended).  With the MasterSecret set, every non-empty input that
does not split on `:` into exactly four components makes `decrypt` fail:
internally this is the `parts.length !== 4` malformed-format branch, but
the error surfaced to callers is the same generic `Failed to decrypt
data` raised for authentication failures, so the two are not
distinguishable at the call boundary; four-component inputs with invalid
hex are not detected at parse time (hex decoding truncates) and fail tag
verification instead; the empty string fails the input-presence check
rather than the format check. -/
theorem malformed_input_rejected (ms : Bytes) (input : Chars)
    (hne : input ≠ []) (hlen : (splitOnColon input).length ≠ 4) :
    decryptCore ⟨some ms⟩ input = Except.error DecErr.invalidFormat ∧
    decrypt ⟨some ms⟩ input = Except.error "Failed to decrypt data" := by
  have hcore : decryptCore ⟨some ms⟩ input = Except.error DecErr.invalidFormat := by
    unfold decryptCore
    rw [if_neg hne]
    cases h : splitOnColon input with
    | nil => rfl
    | cons a t1 =>
      cases t1 with
      | nil => rfl
      | cons b t2 =>
        cases t2 with
        | nil => rfl
        | cons c t3 =>
          cases t3 with
          | nil => rfl
          | cons d t4 =>
            cases t4 with
            | nil => exact absurd (by rw [h]; rfl) hlen
            | cons e t5 => rfl
  exact ⟨hcore, decrypt_of_core_error hcore⟩

/-- `ab`: two characters, one segment. -/
def malformedInputX : Chars := [97, 98]

/-- `00:01:02:03`: four valid hex segments whose tag cannot verify. -/
def authFailInputX : Chars := [48, 48, 58, 48, 49, 58, 48, 50, 58, 48, 51]

/-- `zz:01:02:03`: four segments, the first not valid hex. -/
def invalidHexInputX : Chars := [122, 122, 58, 48, 49, 58, 48, 50, 58, 48, 51]

set_option maxRecDepth 20000 in
/-- Counterexample to C3 as stated: the error `decrypt` raises on a
one-segment input is the very same value it raises on a four-segment
input that fails tag verification — the catch-all handler rethrows one
generic error, so no `MalformedCiphertextError` distinguishable from an
authentication failure reaches the caller; and a four-segment input with
an invalid-hex segment is not classified as malformed at all: hex
decoding truncates and the input fails tag verification instead. -/
theorem malformed_counterexample :
    decrypt cfgW malformedInputX = Except.error "Failed to decrypt data" ∧
    decrypt cfgW authFailInputX = Except.error "Failed to decrypt data" ∧
    decryptCore cfgW malformedInputX = Except.error DecErr.invalidFormat ∧
    decryptCore cfgW authFailInputX = Except.error DecErr.authFailed ∧
    decryptCore cfgW invalidHexInputX = Except.error DecErr.authFailed :=
  ⟨by rfl, by rfl, by rfl, by rfl, by rfl⟩

/-- Witness for the amended C3 at a concrete one-segment input. -/
theorem malformed_input_rejected_witness :
    decryptCore cfgW malformedInputX = Except.error DecErr.invalidFormat ∧
    decrypt cfgW malformedInputX = Except.error "Failed to decrypt data" :=
  malformed_input_rejected msW malformedInputX (by decide) (by decide)

/-- C4.  `encrypt` uses a salt of `SALT_LENGTH = 64 ≥ 32` bytes and a
nonce of `IV_LENGTH = 16` bytes drawn fresh from `crypto.randomBytes`
for the call (modelled as the per-call `salt`/`iv` arguments), derives
the key as `pbkdf2Sync(secret, salt, ITERATIONS = 100000, KEY_LENGTH =
32)` — a 256-bit key — and returns exactly the four hex segments salt,
nonce, tag, ciphertext joined with `:`, a character that never occurs in
hex output. -/
theorem encrypt_format (ms salt iv text : Bytes)
    (htext : text ≠ []) (htb : ∀ b ∈ text, b < 256)
    (hsb : ∀ b ∈ salt, b < 256) (hib : ∀ b ∈ iv, b < 256)
    (hsl : salt.length = SALT_LENGTH) (hil : iv.length = IV_LENGTH) :
    encrypt ⟨some ms⟩ salt iv text =
      Except.ok (joinColon (encParts ms salt iv text)) ∧
    splitOnColon (joinColon (encParts ms salt iv text)) =
      encParts ms salt iv text ∧
    encParts ms salt iv text = [hexEncode salt, hexEncode iv,
      hexEncode (cipherTag ms salt iv text),
      hexEncode (cipherText ms salt iv text)] ∧
    (∀ s ∈ encParts ms salt iv text, ∀ c ∈ s,
      (hexVal c).isSome ∧ c ≠ colonCode) ∧
    deriveKey ms salt = pbkdf2Sync ms salt ITERATIONS KEY_LENGTH ∧
    (deriveKey ms salt).length = KEY_LENGTH ∧
    KEY_LENGTH * 8 = 256 ∧ 100000 ≤ ITERATIONS ∧
    32 ≤ SALT_LENGTH ∧ salt.length = SALT_LENGTH ∧
    IV_LENGTH = 16 ∧ iv.length = IV_LENGTH := by
  have hct : ∀ b ∈ cipherText ms salt iv text, b < 256 :=
    xorStream_lt _ _ 0 text htb
  have htag : ∀ b ∈ cipherTag ms salt iv text, b < 256 := getAuthTag_lt _ _ _
  refine ⟨encrypt_eval ms salt iv text htext, ?_, rfl, ?_, rfl, ?_, by decide,
    by decide, by decide, hsl, by decide, hil⟩
  · show splitOnColon (joinColon [hexEncode salt, hexEncode iv,
      hexEncode (cipherTag ms salt iv text),
      hexEncode (cipherText ms salt iv text)]) = _
    rw [splitOnColon_joinColon_four _ _ _ _ (hexEncode_noColon _ hsb)
      (hexEncode_noColon _ hib) (hexEncode_noColon _ htag)
      (hexEncode_noColon _ hct)]
    rfl
  · intro s hs c hc
    have hsplit : s = hexEncode salt ∨ s = hexEncode iv ∨
        s = hexEncode (cipherTag ms salt iv text) ∨
        s = hexEncode (cipherText ms salt iv text) := by
      simpa [encParts] using hs
    rcases hsplit with h | h | h | h
    · exact ⟨hexEncode_isHex _ hsb c (h ▸ hc), hexEncode_noColon _ hsb c (h ▸ hc)⟩
    · exact ⟨hexEncode_isHex _ hib c (h ▸ hc), hexEncode_noColon _ hib c (h ▸ hc)⟩
    · exact ⟨hexEncode_isHex _ htag c (h ▸ hc), hexEncode_noColon _ htag c (h ▸ hc)⟩
    · exact ⟨hexEncode_isHex _ hct c (h ▸ hc), hexEncode_noColon _ hct c (h ▸ hc)⟩
  · simp [deriveKey, pbkdf2Sync, KEY_LENGTH]

set_option maxRecDepth 20000 in
/-- Witness for C4 at the concrete cipher data. -/
theorem encrypt_format_witness :
    encrypt cfgW saltW ivW textW =
      Except.ok (joinColon (encParts msW saltW ivW textW)) :=
  (encrypt_format msW saltW ivW textW (by decide) (by decide) (by decide)
    (by decide) (by decide) (by decide)).1

/-! ### Controller claims -/

theorem encrypt_ok_inv {cfg : Config} {salt iv text : Bytes} {e : Chars}
    (h : encrypt cfg salt iv text = Except.ok e) :
    encryptCore cfg salt iv text = Except.ok e := by
  unfold encrypt at h
  cases hc : encryptCore cfg salt iv text with
  | ok v =>
    rw [hc] at h
    simp only [Except.mapError, Except.ok.injEq] at h
    rw [h]
  | error er =>
    rw [hc] at h
    simp [Except.mapError] at h

theorem encryptCore_ok_inv {cfg : Config} {salt iv text : Bytes} {e : Chars}
    (h : encryptCore cfg salt iv text = Except.ok e) :
    text ≠ [] ∧ ∃ ms, cfg.encryptionSecret = some ms ∧
      e = joinColon (encParts ms salt iv text) := by
  unfold encryptCore at h
  by_cases ht : text = []
  · rw [if_pos ht] at h; cases h
  · rw [if_neg ht] at h
    cases hcs : cfg.encryptionSecret with
    | none => rw [hcs] at h; cases h
    | some ms =>
      rw [hcs] at h
      simp only [Except.ok.injEq] at h
      exact ⟨ht, ms, rfl, h.symm⟩

/-- C5.  When the Validator rejects the secret, `setAIConfig` answers
with the validator's error and persists nothing: the returned record is
the untouched input record, so the status report afterwards is
unchanged. -/
theorem failed_validation_not_persisted {σ : Type}
    (validate : String → String → String → Except String Unit)
    (enc : String → Except String σ)
    (k : String) (providerArg model : Option String) (user : UserRec σ)
    (msg : String)
    (hk : ¬ jsTrim k = emptyStr)
    (hp : providerArg.getD geminiId = geminiId ∨
      providerArg.getD geminiId = grokId)
    (hm : selectedModelOf (providerArg.getD geminiId) model ∈
      getAvailableModels (providerArg.getD geminiId))
    (hv : validate k (providerArg.getD geminiId)
      (selectedModelOf (providerArg.getD geminiId) model) =
        Except.error msg) :
    setAIConfig validate enc (some k) providerArg model user =
      (SetResp.invalidCredential msg, user) ∧
    getAIConfig ((setAIConfig validate enc (some k) providerArg model
      user).2) = getAIConfig user := by
  have h1 : setAIConfig validate enc (some k) providerArg model user =
      (SetResp.invalidCredential msg, user) := by
    simp only [setAIConfig]
    rw [if_neg hk, if_neg (not_not_intro hp), if_neg (not_not_intro hm), hv]
  exact ⟨h1, by rw [h1]⟩

def kW : String := "test-api-key"
def msgW : String := "Invalid gemini API key. Please check your API key."
def validateRejectW : String → String → String → Except String Unit :=
  fun _ _ _ => Except.error msgW
def validateOkW : String → String → String → Except String Unit :=
  fun _ _ _ => Except.ok ()
def encOkW : String → Except String Nat := fun _ => Except.ok 7
def userW : UserRec Nat :=
  { aiApiKey := none, geminiApiKey := none, aiProvider := none,
    aiModel := none }
def modelBadW : String := "not-a-real-model"

/-- Witness for C5 with an always-rejecting validator stub. -/
theorem failed_validation_not_persisted_witness :
    setAIConfig validateRejectW encOkW (some kW) none none userW =
      (SetResp.invalidCredential msgW, userW) ∧
    getAIConfig ((setAIConfig validateRejectW encOkW (some kW) none none
      userW).2) = getAIConfig userW :=
  failed_validation_not_persisted validateRejectW encOkW kW none none userW
    msgW (by decide) (Or.inl rfl) (by decide) rfl

/-- C6.  A given model outside `getAvailableModels provider` is rejected
with the unsupported-model response and the record is unchanged; an
omitted model falls back to the provider's default
(`gemini-2.5-flash-lite` for gemini, `llama-3.3-70b-versatile` for
grok), which is what gets validated and persisted. -/
theorem model_validation {σ : Type}
    (validate : String → String → String → Except String Unit)
    (enc : String → Except String σ)
    (k : String) (providerArg : Option String) (user : UserRec σ)
    (hk : ¬ jsTrim k = emptyStr)
    (hp : providerArg.getD geminiId = geminiId ∨
      providerArg.getD geminiId = grokId) :
    (∀ m : String, m ≠ emptyStr →
      m ∉ getAvailableModels (providerArg.getD geminiId) →
      setAIConfig validate enc (some k) providerArg (some m) user =
        (SetResp.unsupportedModel
          (getAvailableModels (providerArg.getD geminiId)), user)) ∧
    (∀ e : σ, validate k (providerArg.getD geminiId)
        (defaultModelFor (providerArg.getD geminiId)) = Except.ok () →
      enc k = Except.ok e →
      setAIConfig validate enc (some k) providerArg none user =
        (SetResp.saved (providerArg.getD geminiId)
          (defaultModelFor (providerArg.getD geminiId)),
         { user with aiApiKey := some e,
                     aiProvider := some (providerArg.getD geminiId),
                     aiModel := some (defaultModelFor
                       (providerArg.getD geminiId)) })) ∧
    defaultModelFor geminiId = geminiDefaultModel ∧
    defaultModelFor grokId = grokDefaultModel := by
  refine ⟨?_, ?_, rfl, by decide⟩
  · intro m hm1 hm2
    have hsel : selectedModelOf (providerArg.getD geminiId) (some m) = m := by
      simp [selectedModelOf, hm1]
    simp only [setAIConfig]
    rw [if_neg hk, if_neg (not_not_intro hp), hsel, if_pos hm2]
  · intro e hv he
    have hsel : selectedModelOf (providerArg.getD geminiId) none =
        defaultModelFor (providerArg.getD geminiId) := rfl
    have hmem : defaultModelFor (providerArg.getD geminiId) ∈
        getAvailableModels (providerArg.getD geminiId) := by
      rcases hp with h | h <;> rw [h] <;> decide
    simp only [setAIConfig]
    rw [if_neg hk, if_neg (not_not_intro hp), hsel,
        if_neg (not_not_intro hmem), hv, he]

/-- Witness for C6: an unsupported model is refused without touching the
record, and an omitted model stores the gemini default. -/
theorem model_validation_witness :
    setAIConfig validateOkW encOkW (some kW) none (some modelBadW) userW =
      (SetResp.unsupportedModel (getAvailableModels geminiId), userW) ∧
    setAIConfig validateOkW encOkW (some kW) none none userW =
      (SetResp.saved geminiId (defaultModelFor geminiId),
       { userW with aiApiKey := some 7, aiProvider := some geminiId,
                    aiModel := some (defaultModelFor geminiId) }) := by
  have h := model_validation validateOkW encOkW kW none userW
    (by decide) (Or.inl rfl)
  exact ⟨h.1 modelBadW (by decide) (by decide), h.2.1 7 rfl rfl⟩


/-- C7.  The status report computes `hasApiKey` as presence of the
current OR the legacy secret, `||`-defaults provider and model to
`gemini` and its default model, and is independent of the secret values
themselves — two records that agree on presence bits and on
provider/model produce identical reports, so no secret material can
appear in the response. -/
theorem status_reporting {σ : Type} (user : UserRec σ) :
    getAIConfig user =
      { hasApiKey := user.aiApiKey.isSome || user.geminiApiKey.isSome,
        provider := user.aiProvider.getD geminiId,
        model := user.aiModel.getD geminiDefaultModel,
        availableGemini := geminiModels, availableGrok := grokModels } ∧
    (user.aiProvider = none → user.aiModel = none →
      (getAIConfig user).provider = geminiId ∧
      (getAIConfig user).model = geminiDefaultModel ∧
      geminiDefaultModel = defaultModelFor geminiId) ∧
    (∀ k g : Option σ, k.isSome = user.aiApiKey.isSome →
      g.isSome = user.geminiApiKey.isSome →
      getAIConfig { user with aiApiKey := k, geminiApiKey := g } =
        getAIConfig user) := by
  have hgem : getAvailableModels geminiId = geminiModels := by decide
  have hgro : getAvailableModels grokId = grokModels := by decide
  refine ⟨?_, ?_, ?_⟩
  · simp [getAIConfig, hgem, hgro]
  · intro h1 h2
    refine ⟨by simp [getAIConfig, h1], by simp [getAIConfig, h2], rfl⟩
  · intro k g hk hg
    simp [getAIConfig, hk, hg]

def userW3 : UserRec Nat :=
  { aiApiKey := some 3, geminiApiKey := none, aiProvider := none,
    aiModel := none }
def userW4 : UserRec Nat :=
  { aiApiKey := some 4, geminiApiKey := none, aiProvider := none,
    aiModel := none }

/-- Witness for C7: concrete defaulting, and two records differing only
in the stored secret value report identically. -/
theorem status_reporting_witness :
    (getAIConfig userW).provider = geminiId ∧
    (getAIConfig userW).model = geminiDefaultModel ∧
    getAIConfig userW3 = getAIConfig userW4 := by
  have h := status_reporting userW
  have h34 := (status_reporting userW4).2.2 (some 3) none rfl rfl
  exact ⟨(h.2.1 rfl rfl).1, (h.2.1 rfl rfl).2.1, h34⟩

/-- C8.  Secret resolution prefers the current field, falls back to the
legacy field, errors with the not-configured classification when both
are absent, and — instantiated with the real cipher — a record holding
only a legacy `encrypt` output resolves to the correctly decrypted
legacy plaintext. -/
theorem resolve_secret_spec :
    (∀ (σ τ : Type) (dec : σ → Except String τ) (u : UserRec σ) (k : σ),
      u.aiApiKey = some k →
      resolveSecretForUse dec u =
        (dec k).mapError ResolveErr.decryptFailed) ∧
    (∀ (σ τ : Type) (dec : σ → Except String τ) (u : UserRec σ) (g : σ),
      u.aiApiKey = none → u.geminiApiKey = some g →
      resolveSecretForUse dec u =
        (dec g).mapError ResolveErr.decryptFailed) ∧
    (∀ (σ τ : Type) (dec : σ → Except String τ) (u : UserRec σ),
      u.aiApiKey = none → u.geminiApiKey = none →
      resolveSecretForUse dec u = Except.error ResolveErr.notConfigured) ∧
    (∀ ms salt iv s : Bytes, (∀ b ∈ s, b < 256) → (∀ b ∈ salt, b < 256) →
      (∀ b ∈ iv, b < 256) → iv ≠ [] →
      ∀ (prov mdl : Option String) (e : Chars),
      encrypt ⟨some ms⟩ salt iv s = Except.ok e →
      resolveSecretForUse (decrypt ⟨some ms⟩)
        { aiApiKey := none, geminiApiKey := some e, aiProvider := prov,
          aiModel := mdl } = Except.ok s) := by
  refine ⟨?_, ?_, ?_, ?_⟩
  · intro σ τ dec u k hk
    rcases u with ⟨a, g, p, m⟩
    cases hk
    rfl
  · intro σ τ dec u g ha hg
    rcases u with ⟨a, gg, p, m⟩
    cases ha
    cases hg
    rfl
  · intro σ τ dec u ha hg
    rcases u with ⟨a, gg, p, m⟩
    cases ha
    cases hg
    rfl
  · intro ms salt iv s hsb hsaltb hivb hiv prov mdl e he
    obtain ⟨ht, ms', hms', hee⟩ := encryptCore_ok_inv (encrypt_ok_inv he)
    have hms : ms = ms' := by simpa using hms'
    rw [← hms] at hee
    subst hee
    have hdec : decrypt ⟨some ms⟩ (joinColon (encParts ms salt iv s)) =
        Except.ok s :=
      decrypt_of_core_ok (decrypt_encrypt_core ms salt iv s hsb hsaltb hivb hiv)
    show (decrypt ⟨some ms⟩
      (joinColon (encParts ms salt iv s))).mapError ResolveErr.decryptFailed =
      Except.ok s
    rw [hdec]
    rfl

set_option maxRecDepth 20000 in
/-- Witness for C8: the concrete legacy-only record resolves to the
original plaintext. -/
theorem resolve_secret_spec_witness :
    resolveSecretForUse (decrypt cfgW)
      { aiApiKey := none, geminiApiKey := some encW, aiProvider := none,
        aiModel := none } = Except.ok textW :=
  resolve_secret_spec.2.2.2 msW saltW ivW textW (by decide) (by decide)
    (by decide) (by decide) none none encW (by rfl)

/-- The record `deleteAIConfig` always writes. -/
def clearedRec (σ : Type) : UserRec σ :=
  { aiApiKey := none, geminiApiKey := none, aiProvider := some geminiId,
    aiModel := some geminiDefaultModel }

/-- C9.  `deleteAIConfig` nulls both secret fields, resets provider and
model to `gemini` / `gemini-2.5-flash-lite`, reports no key, and is
idempotent: deleting again — in particular deleting the already-empty
record — succeeds with the same cleared state. -/
theorem delete_credential_clears {σ : Type} (u : UserRec σ) :
    deleteAIConfig u = (false, clearedRec σ) ∧
    (clearedRec σ).aiApiKey = none ∧
    (clearedRec σ).geminiApiKey = none ∧
    (clearedRec σ).aiProvider = some geminiId ∧
    (clearedRec σ).aiModel = some geminiDefaultModel ∧
    geminiId = "gemini" ∧
    geminiDefaultModel = "gemini-2.5-flash-lite" ∧
    deleteAIConfig ((deleteAIConfig u).2) = deleteAIConfig u ∧
    deleteAIConfig (clearedRec σ) = (false, clearedRec σ) :=
  ⟨rfl, rfl, rfl, rfl, rfl, rfl, rfl, rfl, rfl⟩

/-- The record the legacy `setApiKey` persists on success: the one
ciphertext `e` in both secret fields. -/
def legacySavedRec {σ : Type} (e : σ) : UserRec σ :=
  { aiApiKey := some e, geminiApiKey := some e, aiProvider := some geminiId,
    aiModel := some geminiDefaultModel }

/-- C10.  The legacy `setApiKey` writes the one ciphertext produced for
the call to both the current and the legacy field and pins gemini and
its default model, so both fields hold the identical encrypted secret
afterwards. -/
theorem legacy_set_api_key {σ : Type}
    (validate : String → String → String → Except String Unit)
    (enc : String → Except String σ)
    (k : String) (user : UserRec σ) (e : σ)
    (hk : ¬ jsTrim k = emptyStr)
    (hv : validate k geminiId geminiDefaultModel = Except.ok ())
    (he : enc k = Except.ok e) :
    setApiKey validate enc (some k) user =
      (SetResp.saved geminiId geminiDefaultModel, legacySavedRec e) ∧
    (setApiKey validate enc (some k) user).2.aiApiKey =
      (setApiKey validate enc (some k) user).2.geminiApiKey := by
  have h1 : setApiKey validate enc (some k) user =
      (SetResp.saved geminiId geminiDefaultModel, legacySavedRec e) := by
    simp only [setApiKey]
    rw [if_neg hk, hv, he]
    rfl
  exact ⟨h1, by rw [h1]; rfl⟩

/-- Witness for C10 with accepting validator and cipher stubs. -/
theorem legacy_set_api_key_witness :
    setApiKey validateOkW encOkW (some kW) userW =
      (SetResp.saved geminiId geminiDefaultModel, legacySavedRec 7) :=
  (legacy_set_api_key validateOkW encOkW kW userW 7 (by decide) rfl rfl).1
